import Mathlib

/-!
Verification development for the ask-cli repository.

The TypeScript sources are shallowly embedded: strings are `List Char`
(`Str`), pure helper functions (`stripCodeFences`, `cleanResponse`,
`splitCommandAndExplanation`, `detectGitContext`, `summarizeFiles`,
configuration reading and the two command actions) become Lean functions.
JavaScript `String.prototype.trim` and the regex class `\s` are modelled by
the ASCII whitespace set (space, tab, newline, carriage return, vertical
tab, form feed); the claims under study never depend on the exotic Unicode
whitespace code points.  I/O is made explicit: file-system reads, spawned
processes and the LLM transport become input parameters describing their
observable outcome, and `process.exit` / printing / history writes become
fields of a result record.
-/

abbrev Str := List Char

/-- ASCII whitespace, the fragment of the JavaScript `trim`/`\s` class
relevant here. -/
def isWS (c : Char) : Bool :=
  c = ' ' || c = '\t' || c = '\n' || c = '\r' ||
  c = Char.ofNat 11 || c = Char.ofNat 12

/-- Leading-whitespace removal, one half of JS `trim`. -/
def trimLeft (s : Str) : Str := s.dropWhile isWS

/-- Trailing-whitespace removal, the other half of JS `trim`. -/
def trimRight (s : Str) : Str := (s.reverse.dropWhile isWS).reverse

/-- JS `String.prototype.trim`. -/
def trim (s : Str) : Str := trimRight (trimLeft s)

/-- The triple-backtick fence marker. -/
def fence : Str := "```".data

/-- The single-backtick marker. -/
def bq : Str := "`".data

/-- JS `t.indexOf("\n")`, as an optional index. -/
def firstNewlineIdx : Str → Option Nat
  | [] => none
  | c :: cs => if c = '\n' then some 0 else (firstNewlineIdx cs).map (· + 1)

/-- JS `t.slice(a, b)` for non-negative bounds. -/
def listSlice (s : Str) (a b : Nat) : Str := (s.take b).drop a

/-- JS `t.replace(/```/g, "")`: remove every non-overlapping occurrence of
the fence marker, scanning left to right (when the three characters at the
cursor are the fence, skip them; otherwise keep one character and move
on). -/
def removeAllTriple : Str → Str
  | [] => []
  | [c] => [c]
  | [c, d] => [c, d]
  | c :: d :: e :: rest =>
    if fence.isPrefixOf (c :: d :: e :: rest) then removeAllTriple rest
    else c :: removeAllTriple (d :: e :: rest)

/-- Condition of the first `if` in `stripCodeFences`:
`t.startsWith("```") && t.endsWith("```")`. -/
def tripleCheck (t : Str) : Bool := fence.isPrefixOf t && fence.isSuffixOf t

/-- Condition of the second `if` in `stripCodeFences`:
`t.startsWith("`") && t.endsWith("`") && t.length > 2`. -/
def singleCheck (t : Str) : Bool :=
  bq.isPrefixOf t && bq.isSuffixOf t && decide (t.length > 2)

/-- The first `if` block of `stripCodeFences` (part_000 lines 151-158):
if wholly triple-fenced, drop through the first newline and the closing
fence and trim; with no newline, delete every fence marker and trim. -/
def stripTripleStep (t : Str) : Str :=
  if tripleCheck t then
    match firstNewlineIdx t with
    | some i => trim (listSlice t (i + 1) (t.length - 3))
    | none => trim (removeAllTriple t)
  else t

/-- The second `if` block of `stripCodeFences` (part_000 line 160-162):
`t = t.slice(1, -1).trim()` when single-backtick wrapped with length > 2. -/
def stripSingleStep (t : Str) : Str :=
  if singleCheck t then trim (List.dropLast (t.drop 1)) else t

/-- `stripCodeFences` from part_000 lines 148-165.  The source mutates a
local `t` through `trim` and two successive (not mutually exclusive) `if`
blocks; the embedding composes the two blocks in that order. -/
def stripCodeFences (text : Str) : Str :=
  stripSingleStep (stripTripleStep (trim text))

/-- `cleanResponse` from src/index.ts lines 66-82.  Unlike
`stripCodeFences` it chains the two unwrapping checks with `else if`
(and its single-backtick branch has no length guard), then trims again. -/
def cleanResponse (text : Str) : Str :=
  let t := trim text
  let t :=
    if tripleCheck t then
      match firstNewlineIdx t with
      | some i => trim (listSlice t (i + 1) (t.length - 3))
      | none => trim (removeAllTriple t)
    else if bq.isPrefixOf t && bq.isSuffixOf t then
      trim (List.dropLast (t.drop 1))
    else t
  trim t

/-- Modelled from the spec: the spec's §4.4 description of `normalize`
says the triple-fence check and the single-backtick check "are mutually
exclusive and applied in fixed order (triple-fence check first)".  This
definition realises exactly that sentence — the branch bodies are the
implementation's, but the two checks are chained exclusively — so it can
be compared against `stripCodeFences`, whose two checks are sequential. -/
def stripExclusive (text : Str) : Str :=
  let t := trim text
  if tripleCheck t then stripTripleStep t else stripSingleStep t

/-- JS `raw.split("\n")`: split at every newline, keeping empty pieces;
the empty string yields one empty piece. -/
def splitLines : Str → List Str
  | [] => [[]]
  | c :: cs =>
    if c = '\n' then [] :: splitLines cs
    else
      match splitLines cs with
      | [] => [[c]]
      | l :: ls => (c :: l) :: ls

/-- JS `Array.prototype.join(sep)`. -/
def joinWith (sep : Str) : List Str → Str
  | [] => []
  | [c] => c
  | c :: c' :: cs => c ++ sep ++ joinWith sep (c' :: cs)

/-- `join("\n")`. -/
def joinNl : List Str → Str := joinWith ['\n']

/-- `join(" ")`. -/
def joinSp : List Str → Str := joinWith [' ']

/-- The annotation sentinel `"# explain:"`. -/
def sentinel : Str := "# explain:".data

/-- `line.replace(/^# explain:\s*/, "").trim()` for a line already known
to start with the sentinel: drop the ten sentinel characters, the greedy
run of whitespace the regex consumes, then trim. -/
def stripSentinel (l : Str) : Str := trim ((l.drop sentinel.length).dropWhile isWS)

/-- The `for` loop of `splitCommandAndExplanation` (part_000 lines
412-418): each trimmed line goes, in order, to the command list or (with
the sentinel stripped) to the explanation list. -/
def collectLines : List Str → List Str × List Str
  | [] => ([], [])
  | l :: ls =>
    let r := collectLines ls
    if sentinel.isPrefixOf l then (r.1, stripSentinel l :: r.2)
    else (l :: r.1, r.2)

/-- `raw.split("\n").map((l) => l.trim())`. -/
def normLines (raw : Str) : List Str := (splitLines raw).map trim

structure ParsedCommand where
  command : Str
  explanation : Option Str
deriving DecidableEq, Repr

/-- `splitCommandAndExplanation` from part_000 lines 407-424. -/
def splitCommandAndExplanation (raw : Str) : ParsedCommand :=
  let lines := normLines raw
  let r := collectLines lines
  { command := trim (joinNl r.1)
  , explanation := if r.2.isEmpty then none else some (joinSp r.2) }

/-- JS `toLowerCase` on the ASCII range, used to model the `/i` regex
flag: a case-insensitive test of a lowercase pattern is a plain substring
test against the lowercased subject. -/
def lowerStr (s : Str) : Str := s.map Char.toLower

/-- Substring test (`/pat/.test(s)` for a literal pattern). -/
def containsSub (pat s : Str) : Bool := s.tails.any (fun t => pat.isPrefixOf t)

/-- The error classes of part_000 lines 40-43, as observable kinds.
`authFailure` is `AskAuthError`, `timeoutFailure` is `AskTimeoutError`,
`genericFailure` is the base `AskError`. -/
inductive AskErrorKind where
  | authFailure
  | timeoutFailure
  | genericFailure
deriving DecidableEq, Repr

/-- The `catch` block of `callLLM` (part_000 lines 386-395): match the
message against `/api key/i`, `/authentication/i`, `/timeout/i`. -/
def classifyMessage (msg : Str) : AskErrorKind :=
  if containsSub "api key".data (lowerStr msg) ||
     containsSub "authentication".data (lowerStr msg) then .authFailure
  else if containsSub "timeout".data (lowerStr msg) then .timeoutFailure
  else .genericFailure

/-- The observable behaviour of the one transport call a pipeline makes:
either the completion API returns (with `choices[0]?.message?.content`
possibly absent), or it throws with some message. -/
inductive TransportOutcome where
  | content (text : Option Str)
  | failure (message : Str)
deriving DecidableEq, Repr

/-- Result of `callLLM`: the trimmed completion text, or the class and
message of the error it throws. -/
inductive LLMOutcome where
  | success (text : Str)
  | failed (kind : AskErrorKind) (message : Str)
deriving DecidableEq, Repr

def emptyResponseMsg : Str := "Empty response from OpenAI".data

/-- `callLLM` from part_000 lines 369-396.  An absent or blank content
raises `AskContentError` inside the `try`, so the function's own `catch`
re-classifies it; its message matches none of the patterns, hence the
kind finally thrown for blank content is the base `AskError`
(`genericFailure`) with the `AskContentError` message preserved. -/
def callLLM : TransportOutcome → LLMOutcome
  | .content none => .failed (classifyMessage emptyResponseMsg) emptyResponseMsg
  | .content (some s) =>
    if (trim s).isEmpty then .failed (classifyMessage emptyResponseMsg) emptyResponseMsg
    else .success (trim s)
  | .failure m => .failed (classifyMessage m) m

/-- `AskConfig` (part_000 lines 26-28). -/
structure AskConfig where
  apiKey : Option Str
deriving DecidableEq, Repr

/-- Observable state of the stored config file.  `JSON.parse` is
abstracted: `unparsable` stands for content on which it throws. -/
inductive ConfigFile where
  | missing
  | unparsable
  | parsed (cfg : AskConfig)
deriving DecidableEq, Repr

/-- `readConfig` from part_000 lines 81-90: a missing file yields `{}`,
a parse failure is caught and yields `{}`, otherwise the parsed value. -/
def readConfig : ConfigFile → AskConfig
  | .missing => { apiKey := none }
  | .unparsable => { apiKey := none }
  | .parsed cfg => cfg

/-- JS truthiness of a possibly-undefined string: `undefined` and `""`
are falsy. -/
def jsTruthy : Option Str → Bool
  | none => false
  | some s => !s.isEmpty

/-- JS `a || b` on possibly-undefined strings. -/
def jsOrStr : Option Str → Option Str → Option Str
  | some s, b => if s.isEmpty then b else some s
  | none, b => b

/-- The credential-resolution expression
`cfg.apiKey || process.env.ASK_CLI_API_KEY || process.env.OPENAI_API_KEY`
(part_000 lines 529-530 and 633-634). -/
def effectiveApiKey (cfg : AskConfig) (envAskKey envOpenaiKey : Option Str) :
    Option Str :=
  jsOrStr cfg.apiKey (jsOrStr envAskKey envOpenaiKey)

inductive AskMode where
  | generate
  | explain
deriving DecidableEq, Repr

/-- `AskHistoryEntry` (part_000 lines 19-24).  The wall-clock `timestamp`
field is not modelled: it carries no information the claims mention. -/
structure HistoryEntry where
  mode : AskMode
  question : Str
  answer : Str
deriving DecidableEq, Repr

/-- Inputs determining one run of the main generate action (part_000
lines 497-615): the relevant CLI state, the observable environment, and
the transport outcome the single LLM call would produce. -/
structure GenInputs where
  apiKeyFlag : Option Str
  historyFlag : Bool
  questionParts : List Str
  cfgFile : ConfigFile
  envAskKey : Option Str
  envOpenaiKey : Option Str
  transport : TransportOutcome
deriving DecidableEq, Repr

/-- Observable outcome of a run of the generate action.  `presented` is
the parsed answer handed to the success-path presentation (text or JSON);
`history` is the list of entries this invocation appends; `llmCalls`
counts transport calls (the source contains exactly one call site and no
retry loop). -/
structure GenResult where
  exitCode : Nat
  presented : Option ParsedCommand
  history : List HistoryEntry
  llmCalls : Nat
  reportedError : Option (AskErrorKind × Str)
deriving DecidableEq, Repr

/-- The generate action of part_000 lines 504-615.  Presentation detail
(spinner, typewriter, clipboard, cmdbook) alters neither the exit code
nor the history and is folded into the single `presented` field. -/
def runGenerate (i : GenInputs) : GenResult :=
  if jsTruthy i.apiKeyFlag then
    { exitCode := 0, presented := none, history := [], llmCalls := 0
    , reportedError := none }
  else if i.historyFlag then
    { exitCode := 0, presented := none, history := [], llmCalls := 0
    , reportedError := none }
  else
    let question := trim (joinSp i.questionParts)
    if question.isEmpty then
      { exitCode := 0, presented := none, history := [], llmCalls := 0
      , reportedError := none }
    else
      let cfg := readConfig i.cfgFile
      let effKey := effectiveApiKey cfg i.envAskKey i.envOpenaiKey
      if !(jsTruthy effKey) then
        { exitCode := 1, presented := none, history := [], llmCalls := 0
        , reportedError := none }
      else
        match callLLM i.transport with
        | .failed kind msg =>
          { exitCode := 1, presented := none, history := [], llmCalls := 1
          , reportedError := some (kind, msg) }
        | .success rawText =>
          let stripped := stripCodeFences rawText
          if (trim stripped).isEmpty then
            { exitCode := 1, presented := none, history := [], llmCalls := 1
            , reportedError := none }
          else
            let parsed := splitCommandAndExplanation stripped
            { exitCode := 0, presented := some parsed
            , history := [{ mode := .generate, question := question
                          , answer := stripped }]
            , llmCalls := 1, reportedError := none }

/-- Inputs determining one run of the `explain` subcommand action
(part_000 lines 623-680). -/
structure ExplainInputs where
  commandParts : List Str
  cfgFile : ConfigFile
  envAskKey : Option Str
  envOpenaiKey : Option Str
  transport : TransportOutcome
deriving DecidableEq, Repr

/-- Observable outcome of a run of the explain action; `presented` is the
normalized text printed on the success path (plain or JSON). -/
structure ExplainResult where
  exitCode : Nat
  presented : Option Str
  history : List HistoryEntry
  llmCalls : Nat
  reportedError : Option (AskErrorKind × Str)
deriving DecidableEq, Repr

/-- The explain action of part_000 lines 623-680.  Note: after
normalization there is no emptiness check in the source; the normalized
text is presented and recorded unconditionally. -/
def runExplain (i : ExplainInputs) : ExplainResult :=
  let commandText := trim (joinSp i.commandParts)
  if commandText.isEmpty then
    { exitCode := 1, presented := none, history := [], llmCalls := 0
    , reportedError := none }
  else
    let cfg := readConfig i.cfgFile
    let effKey := effectiveApiKey cfg i.envAskKey i.envOpenaiKey
    if !(jsTruthy effKey) then
      { exitCode := 1, presented := none, history := [], llmCalls := 0
      , reportedError := none }
    else
      match callLLM i.transport with
      | .failed kind msg =>
        { exitCode := 1, presented := none, history := [], llmCalls := 1
        , reportedError := some (kind, msg) }
      | .success rawText =>
        let stripped := stripCodeFences rawText
        { exitCode := 0, presented := some stripped
        , history := [{ mode := .explain, question := commandText
                      , answer := stripped }]
        , llmCalls := 1, reportedError := none }

/-- Observable outcome of one `spawnSync` call: a result record with its
`status` (`none` models JS `null`, e.g. death by signal) and captured
stdout, or a thrown I/O exception. -/
inductive SpawnOutcome where
  | res (status : Option Int) (stdout : Str)
  | thrown
deriving DecidableEq, Repr

/-- `GitContext` (part_000 lines 220-224). -/
structure GitContext where
  isRepo : Bool
  branch : Option Str
  summary : Option Str
deriving DecidableEq, Repr

/-- `detectGitContext` from part_000 lines 226-268, over the observable
outcomes of the presence test for `.git` and the two `spawnSync` calls.
Each query is wrapped in its own `try`/`catch`, so the embedding is total
and the two queries are handled independently. -/
def detectGitContext (gitDirExists : Bool) (branchRun statusRun : SpawnOutcome) :
    GitContext :=
  if !gitDirExists then { isRepo := false, branch := none, summary := none }
  else
    let branch : Option Str :=
      match branchRun with
      | .res st out => if st = some 0 then some (trim out) else none
      | .thrown => none
    let summary : Option Str :=
      match statusRun with
      | .res st out =>
        if st = some 0 then
          some (joinWith " | ".data
            ((((splitLines out).map trim).filter (fun l => !l.isEmpty)).take 5))
        else none
      | .thrown => none
    { isRepo := true, branch := branch, summary := summary }

/-- `summarizeFiles` from part_000 lines 209-218, over the observable
outcome of `fs.readdirSync` (which may throw). -/
def summarizeFiles (dirListing : Except Unit (List Str)) : Str :=
  match dirListing with
  | .error _ => "unavailable".data
  | .ok entries =>
    let visible := entries.filter (fun f => !(['.'].isPrefixOf f))
    let top := visible.take 20
    joinWith ", ".data top ++
      (if visible.length > 20 then ", ...".data else [])

/-- Auxiliary: drop leading empty segments of a line list. -/
def dropLeadingEmpties (cs : List Str) : List Str :=
  cs.dropWhile (fun c => c.isEmpty)

/-- Auxiliary: drop trailing empty segments of a line list. -/
def dropTrailingEmpties (cs : List Str) : List Str :=
  (cs.reverse.dropWhile (fun c => c.isEmpty)).reverse

/-- Auxiliary: drop empty segments at both ends of a line list.  When the
segments are individually trimmed, newline-joining then trimming the
joined text removes exactly these edge segments (`trim_joinNl` below). -/
def dropEdgeEmpties (cs : List Str) : List Str :=
  dropTrailingEmpties (dropLeadingEmpties cs)

/-! ### Helper lemmas: `dropWhile` and `trim` algebra -/

theorem dropWhile_head_not {α : Type} (p : α → Bool) :
    ∀ (l : List α) (a : α), (l.dropWhile p).head? = some a → p a = false := by
  intro l
  induction l with
  | nil => intro a h; simp [List.dropWhile] at h
  | cons x xs ih =>
    intro a h
    rw [List.dropWhile_cons] at h
    by_cases hx : p x = true
    · rw [if_pos hx] at h; exact ih a h
    · rw [if_neg hx] at h
      simp only [List.head?_cons, Option.some.injEq] at h
      rw [← h]
      exact Bool.eq_false_iff.mpr hx

theorem dropWhile_suffix {α : Type} (p : α → Bool) :
    ∀ l : List α, l.dropWhile p <:+ l := by
  intro l
  induction l with
  | nil => exact List.suffix_refl _
  | cons x xs ih =>
    rw [List.dropWhile_cons]
    by_cases hx : p x = true
    · rw [if_pos hx]; exact ih.trans (List.suffix_cons x xs)
    · rw [if_neg hx]

theorem dropWhile_idem {α : Type} (p : α → Bool) :
    ∀ l : List α, (l.dropWhile p).dropWhile p = l.dropWhile p := by
  intro l
  induction l with
  | nil => rfl
  | cons x xs ih =>
    rw [List.dropWhile_cons]
    by_cases hx : p x = true
    · rw [if_pos hx]; exact ih
    · rw [if_neg hx, List.dropWhile_cons, if_neg hx]

theorem trimLeft_suffix (s : Str) : trimLeft s <:+ s := dropWhile_suffix isWS s

theorem trimRight_prefix_self (s : Str) : trimRight s <+: s := by
  have h := dropWhile_suffix isWS s.reverse
  have h2 := List.reverse_prefix.mpr h
  rwa [List.reverse_reverse] at h2

theorem trim_subset (s : Str) : trim s ⊆ s := by
  intro a ha
  exact (trimLeft_suffix s).subset ((trimRight_prefix_self (trimLeft s)).subset ha)

theorem trimLeft_idem (s : Str) : trimLeft (trimLeft s) = trimLeft s :=
  dropWhile_idem isWS s

theorem trimRight_idem (s : Str) : trimRight (trimRight s) = trimRight s := by
  unfold trimRight
  rw [List.reverse_reverse, dropWhile_idem]

theorem trimLeft_of_trimLeft_eq {u : Str} (h : trimLeft u = u) :
    trimLeft (trimRight u) = trimRight u := by
  cases hh : trimRight u with
  | nil => rfl
  | cons b t =>
    have hpre : trimRight u <+: u := trimRight_prefix_self u
    rw [hh] at hpre
    obtain ⟨r, hr⟩ := hpre
    have hbu : u.head? = some b := by rw [← hr]; rfl
    have hb : isWS b = false := by
      have : (trimLeft u).head? = some b := by rw [h]; exact hbu
      exact dropWhile_head_not isWS u b this
    rw [trimLeft, List.dropWhile_cons, hb]
    simp

theorem trim_idem (s : Str) : trim (trim s) = trim s := by
  have h2 : trimLeft (trimRight (trimLeft s)) = trimRight (trimLeft s) :=
    trimLeft_of_trimLeft_eq (trimLeft_idem s)
  rw [trim, trim, h2, trimRight_idem]

theorem trim_head?_not_ws {s : Str} {a : Char} (h : (trim s).head? = some a) :
    isWS a = false := by
  rw [trim] at h
  rcases hh : trimRight (trimLeft s) with _ | ⟨b, t⟩
  · rw [hh] at h; simp at h
  · rw [hh] at h
    simp only [List.head?_cons, Option.some.injEq] at h
    obtain ⟨r, hr⟩ := trimRight_prefix_self (trimLeft s)
    rw [hh] at hr
    have : (trimLeft s).head? = some b := by rw [← hr]; rfl
    rw [← h]
    exact dropWhile_head_not isWS _ b this

theorem trim_getLast?_not_ws {s : Str} {a : Char}
    (h : (trim s).getLast? = some a) : isWS a = false := by
  rw [trim, trimRight, List.getLast?_reverse] at h
  exact dropWhile_head_not isWS _ a h

theorem trim_eq_self {s : Str}
    (h1 : ∀ a, s.head? = some a → isWS a = false)
    (h2 : ∀ a, s.getLast? = some a → isWS a = false) : trim s = s := by
  have hL : trimLeft s = s := by
    cases s with
    | nil => rfl
    | cons x xs =>
      rw [trimLeft, List.dropWhile_cons, h1 x rfl]
      simp
  rw [trim, hL, trimRight]
  cases hrev : s.reverse with
  | nil =>
    have : s = [] := by
      have := congrArg List.reverse hrev
      rwa [List.reverse_reverse] at this
    rw [this]; rfl
  | cons y ys =>
    have hy : s.getLast? = some y := by
      rw [← List.head?_reverse, hrev]; rfl
    rw [List.dropWhile_cons, h2 y hy]
    simp [← hrev]

theorem trimRight_append_ws {x : Str} {c : Char} (hc : isWS c = true) :
    trimRight (x ++ [c]) = trimRight x := by
  rw [trimRight, List.reverse_append]
  simp only [List.reverse_cons, List.reverse_nil, List.nil_append,
    List.singleton_append]
  rw [List.dropWhile_cons, hc]
  rfl

theorem trim_append_ws {x : Str} {c : Char} (hc : isWS c = true) :
    trim (x ++ [c]) = trim x := by
  rw [trim, trim, trimLeft, trimLeft, List.dropWhile_append]
  by_cases h : (x.dropWhile isWS).isEmpty = true
  · rw [if_pos h]
    have hx : x.dropWhile isWS = [] := by
      cases hh : x.dropWhile isWS with
      | nil => rfl
      | cons a t => rw [hh] at h; simp at h
    rw [hx]
    simp only [List.dropWhile_cons, hc, List.dropWhile_nil]
    rfl
  · rw [if_neg h]
    exact trimRight_append_ws hc

theorem trim_length_le (s : Str) : (trim s).length ≤ s.length := by
  have h1 : (trim s).length ≤ (trimLeft s).length :=
    (trimRight_prefix_self (trimLeft s)).length_le
  have h2 : (trimLeft s).length ≤ s.length :=
    (List.dropWhile_sublist isWS).length_le
  omega

/-! ### Helper lemmas: `splitLines` and `joinWith` -/

theorem splitLines_ne_nil (s : Str) : splitLines s ≠ [] := by
  induction s with
  | nil => simp [splitLines]
  | cons c cs ih =>
    rw [splitLines]
    by_cases hc : c = '\n'
    · rw [if_pos hc]; simp
    · rw [if_neg hc]
      cases h : splitLines cs with
      | nil => simp
      | cons l ls => simp

theorem splitLines_no_nl (s : Str) : ∀ l ∈ splitLines s, '\n' ∉ l := by
  induction s with
  | nil => intro l hl; simp [splitLines] at hl; simp [hl]
  | cons c cs ih =>
    intro l hl
    rw [splitLines] at hl
    by_cases hc : c = '\n'
    · rw [if_pos hc] at hl
      rcases List.mem_cons.mp hl with h | h
      · simp [h]
      · exact ih l h
    · rw [if_neg hc] at hl
      rcases hsc : splitLines cs with _ | ⟨l0, ls⟩
      · exact absurd hsc (splitLines_ne_nil cs)
      · rw [hsc] at hl
        rcases List.mem_cons.mp hl with h1 | h1
        · subst h1
          intro hmem
          rcases List.mem_cons.mp hmem with h2 | h2
          · exact hc h2.symm
          · exact ih l0 (by rw [hsc]; exact List.mem_cons_self l0 ls) h2
        · exact ih l (by rw [hsc]; exact List.mem_cons_of_mem l0 h1)

theorem splitLines_of_no_nl {c : Str} (h : '\n' ∉ c) : splitLines c = [c] := by
  induction c with
  | nil => rfl
  | cons a t ih =>
    have ha : a ≠ '\n' := fun hh => h (hh ▸ List.mem_cons_self a t)
    have ht : '\n' ∉ t := fun hh => h (List.mem_cons_of_mem a hh)
    rw [splitLines, if_neg ha, ih ht]

theorem splitLines_append_nl {c : Str} (r : Str) (h : '\n' ∉ c) :
    splitLines (c ++ '\n' :: r) = c :: splitLines r := by
  induction c with
  | nil =>
    simp only [List.nil_append]
    rw [splitLines, if_pos rfl]
  | cons a t ih =>
    have ha : a ≠ '\n' := fun hh => h (hh ▸ List.mem_cons_self a t)
    have ht : '\n' ∉ t := fun hh => h (List.mem_cons_of_mem a hh)
    simp only [List.cons_append]
    rw [splitLines, if_neg ha, ih ht]

theorem joinWith_cons (sep : Str) (c : Str) (cs : List Str) :
    joinWith sep (c :: cs) = c ++ (if cs.isEmpty then [] else sep ++ joinWith sep cs) := by
  cases cs with
  | nil => simp [joinWith]
  | cons c' cs' => simp [joinWith]

theorem splitLines_joinNl {cs : List Str} (hne : cs ≠ [])
    (hnl : ∀ c ∈ cs, '\n' ∉ c) : splitLines (joinNl cs) = cs := by
  induction cs with
  | nil => exact absurd rfl hne
  | cons c cs' ih =>
    cases cs' with
    | nil =>
      exact splitLines_of_no_nl (hnl c (List.mem_cons_self c []))
    | cons d ds =>
      have hjoin : joinNl (c :: d :: ds) = c ++ '\n' :: joinNl (d :: ds) := by
        simp [joinNl, joinWith, List.append_assoc]
      rw [hjoin, splitLines_append_nl _ (hnl c (List.mem_cons_self c _)),
        ih (by simp) (fun x hx => hnl x (List.mem_cons_of_mem c hx))]

theorem joinWith_append_singleton (sep : Str) :
    ∀ (cs : List Str) (c : Str), cs ≠ [] →
      joinWith sep (cs ++ [c]) = joinWith sep cs ++ sep ++ c := by
  intro cs
  induction cs with
  | nil => intro c h; exact absurd rfl h
  | cons x xs ih =>
    intro c _
    cases xs with
    | nil => simp [joinWith]
    | cons y ys =>
      have h1 := ih c (by simp)
      simp only [List.cons_append] at h1 ⊢
      simp only [joinWith] at h1 ⊢
      rw [h1]
      simp [List.append_assoc]

theorem joinNl_reverse :
    ∀ cs : List Str, (joinNl cs).reverse = joinNl ((cs.map List.reverse).reverse) := by
  intro cs
  induction cs with
  | nil => rfl
  | cons c cs' ih =>
    cases cs' with
    | nil => simp [joinNl, joinWith]
    | cons d ds =>
      have hjoin : joinNl (c :: d :: ds) = c ++ '\n' :: joinNl (d :: ds) := by
        simp [joinNl, joinWith, List.append_assoc]
      have hmap : ((c :: d :: ds).map List.reverse).reverse
          = ((d :: ds).map List.reverse).reverse ++ [c.reverse] := by
        simp
      have hne : ((d :: ds).map List.reverse).reverse ≠ [] := by simp
      have hsingle : joinNl (((d :: ds).map List.reverse).reverse ++ [c.reverse])
          = joinNl (((d :: ds).map List.reverse).reverse) ++ ['\n'] ++ c.reverse := by
        unfold joinNl
        exact joinWith_append_singleton _ _ _ hne
      rw [hjoin, hmap, hsingle, ← ih]
      simp [List.reverse_append]

/-! ### Helper lemmas: `trim` through `joinNl` -/

theorem trimLeft_joinNl : ∀ (cs : List Str),
    (∀ c ∈ cs, ∀ x, c.head? = some x → isWS x = false) →
    trimLeft (joinNl cs) = joinNl (dropLeadingEmpties cs) := by
  intro cs
  induction cs with
  | nil => intro _; rfl
  | cons c cs' ih =>
    intro hhead
    rcases c with _ | ⟨a, t⟩
    · rcases cs' with _ | ⟨d, ds⟩
      · rfl
      · have hjoin : joinNl ([] :: d :: ds) = '\n' :: joinNl (d :: ds) := by
          simp [joinNl, joinWith]
        have hdrop : dropLeadingEmpties ([] :: d :: ds) = dropLeadingEmpties (d :: ds) := by
          simp [dropLeadingEmpties]
        rw [hjoin, hdrop,
          ← ih (fun x hx y hy => hhead x (List.mem_cons_of_mem _ hx) y hy)]
        rw [trimLeft, trimLeft, List.dropWhile_cons,
          if_pos (show isWS '\n' = true by decide)]
    · have ha : isWS a = false := hhead (a :: t) (List.mem_cons_self _ _) a rfl
      have hdrop : dropLeadingEmpties ((a :: t) :: cs') = (a :: t) :: cs' := by
        simp [dropLeadingEmpties]
      have hjoin : joinNl ((a :: t) :: cs')
          = a :: (t ++ (if cs'.isEmpty then [] else '\n' :: joinNl cs')) := by
        unfold joinNl
        rw [joinWith_cons]
        simp
      rw [hdrop, hjoin, trimLeft, List.dropWhile_cons, if_neg (by simp [ha])]

theorem map_reverse_dropWhile_isEmpty (l : List Str) :
    (List.dropWhile (fun c : Str => c.isEmpty) (l.map List.reverse)).map List.reverse
      = List.dropWhile (fun c : Str => c.isEmpty) l := by
  rw [List.dropWhile_map]
  have hfun : ((fun c : Str => c.isEmpty) ∘ List.reverse) = (fun c : Str => c.isEmpty) := by
    funext c
    simp only [Function.comp]
    cases c with
    | nil => rfl
    | cons a t => simp [List.reverse_cons]
  rw [hfun, List.map_map]
  simp

theorem trimRight_joinNl (cs : List Str)
    (hlast : ∀ c ∈ cs, ∀ x, c.getLast? = some x → isWS x = false) :
    trimRight (joinNl cs) = joinNl (dropTrailingEmpties cs) := by
  have hhead : ∀ c ∈ (cs.map List.reverse).reverse, ∀ x,
      c.head? = some x → isWS x = false := by
    intro c hc x hx
    rw [List.mem_reverse] at hc
    obtain ⟨c0, hc0, rfl⟩ := List.mem_map.mp hc
    rw [List.head?_reverse] at hx
    exact hlast c0 hc0 x hx
  have step := trimLeft_joinNl ((cs.map List.reverse).reverse) hhead
  unfold trimLeft at step
  rw [trimRight, joinNl_reverse, step, joinNl_reverse]
  congr 1
  rw [dropLeadingEmpties, dropTrailingEmpties]
  congr 1
  have h1 : (cs.map List.reverse).reverse = cs.reverse.map List.reverse :=
    (List.map_reverse _ _).symm
  rw [h1, map_reverse_dropWhile_isEmpty]

theorem trim_joinNl (cs : List Str)
    (hhead : ∀ c ∈ cs, ∀ x, c.head? = some x → isWS x = false)
    (hlast : ∀ c ∈ cs, ∀ x, c.getLast? = some x → isWS x = false) :
    trim (joinNl cs) = joinNl (dropEdgeEmpties cs) := by
  have hsub : ∀ c ∈ dropLeadingEmpties cs, c ∈ cs := by
    intro c hc
    exact (List.dropWhile_sublist _).subset hc
  rw [trim, trimLeft_joinNl cs hhead,
    trimRight_joinNl (dropLeadingEmpties cs) (fun c hc => hlast c (hsub c hc))]
  rfl

theorem dropEdgeEmpties_subset (cs : List Str) : ∀ c ∈ dropEdgeEmpties cs, c ∈ cs := by
  intro c hc
  rw [dropEdgeEmpties, dropTrailingEmpties, List.mem_reverse] at hc
  have h1 := (List.dropWhile_sublist (fun c : Str => c.isEmpty)).subset hc
  rw [List.mem_reverse] at h1
  exact (List.dropWhile_sublist _).subset h1

theorem splitLines_trim_joinNl_nil (cs : List Str)
    (hhead : ∀ c ∈ cs, ∀ x, c.head? = some x → isWS x = false)
    (hlast : ∀ c ∈ cs, ∀ x, c.getLast? = some x → isWS x = false)
    (hnil : dropEdgeEmpties cs = []) :
    splitLines (trim (joinNl cs)) = [[]] := by
  rw [trim_joinNl cs hhead hlast, hnil]
  rfl

theorem splitLines_trim_joinNl_ne (cs : List Str)
    (hhead : ∀ c ∈ cs, ∀ x, c.head? = some x → isWS x = false)
    (hlast : ∀ c ∈ cs, ∀ x, c.getLast? = some x → isWS x = false)
    (hnl : ∀ c ∈ cs, '\n' ∉ c)
    (hne : dropEdgeEmpties cs ≠ []) :
    splitLines (trim (joinNl cs)) = dropEdgeEmpties cs := by
  rw [trim_joinNl cs hhead hlast]
  exact splitLines_joinNl hne
    (fun c hc => hnl c (dropEdgeEmpties_subset cs c hc))

theorem mem_splitLines_trim_joinNl (cs : List Str)
    (hhead : ∀ c ∈ cs, ∀ x, c.head? = some x → isWS x = false)
    (hlast : ∀ c ∈ cs, ∀ x, c.getLast? = some x → isWS x = false)
    (hnl : ∀ c ∈ cs, '\n' ∉ c) :
    ∀ l ∈ splitLines (trim (joinNl cs)), l = [] ∨ l ∈ cs := by
  by_cases h : dropEdgeEmpties cs = []
  · rw [splitLines_trim_joinNl_nil cs hhead hlast h]
    intro l hl
    left
    simpa using hl
  · rw [splitLines_trim_joinNl_ne cs hhead hlast hnl h]
    intro l hl
    right
    exact dropEdgeEmpties_subset cs l hl

theorem filter_dropWhile_isEmpty : ∀ xs : List Str,
    (xs.dropWhile (fun c => c.isEmpty)).filter (fun l => !l.isEmpty)
      = xs.filter (fun l => !l.isEmpty) := by
  intro xs
  induction xs with
  | nil => rfl
  | cons x xs ih =>
    by_cases hx : x.isEmpty = true
    · rw [List.dropWhile_cons, if_pos hx, ih, List.filter_cons,
        if_neg (by simp [hx])]
    · rw [List.dropWhile_cons, if_neg hx]

theorem filter_dropEdgeEmpties (cs : List Str) :
    (dropEdgeEmpties cs).filter (fun l => !l.isEmpty)
      = cs.filter (fun l => !l.isEmpty) := by
  rw [dropEdgeEmpties, dropTrailingEmpties, List.filter_reverse,
    filter_dropWhile_isEmpty, ← List.filter_reverse, List.reverse_reverse,
    dropLeadingEmpties, filter_dropWhile_isEmpty]

theorem filter_splitLines_trim_joinNl (cs : List Str)
    (hhead : ∀ c ∈ cs, ∀ x, c.head? = some x → isWS x = false)
    (hlast : ∀ c ∈ cs, ∀ x, c.getLast? = some x → isWS x = false)
    (hnl : ∀ c ∈ cs, '\n' ∉ c) :
    (splitLines (trim (joinNl cs))).filter (fun l => !l.isEmpty)
      = cs.filter (fun l => !l.isEmpty) := by
  by_cases h : dropEdgeEmpties cs = []
  · rw [splitLines_trim_joinNl_nil cs hhead hlast h]
    have h2 := filter_dropEdgeEmpties cs
    rw [h] at h2
    rw [← h2]
    rfl
  · rw [splitLines_trim_joinNl_ne cs hhead hlast hnl h,
      filter_dropEdgeEmpties]

/-! ### Helper lemmas: the split operation -/

theorem collectLines_eq (ls : List Str) :
    collectLines ls
      = (ls.filter (fun l => !(sentinel.isPrefixOf l)),
         (ls.filter (fun l => sentinel.isPrefixOf l)).map stripSentinel) := by
  induction ls with
  | nil => rfl
  | cons l ls ih =>
    by_cases h : sentinel.isPrefixOf l
    · simp [collectLines, ih, h, List.filter_cons]
    · simp [collectLines, ih, h, List.filter_cons]

theorem normLines_trim (raw : Str) : ∀ c ∈ normLines raw, trim c = c := by
  intro c hc
  obtain ⟨y, _, rfl⟩ := List.mem_map.mp hc
  exact trim_idem y

theorem normLines_head (raw : Str) :
    ∀ c ∈ normLines raw, ∀ x, c.head? = some x → isWS x = false := by
  intro c hc x hx
  obtain ⟨y, _, rfl⟩ := List.mem_map.mp hc
  exact trim_head?_not_ws hx

theorem normLines_last (raw : Str) :
    ∀ c ∈ normLines raw, ∀ x, c.getLast? = some x → isWS x = false := by
  intro c hc x hx
  obtain ⟨y, _, rfl⟩ := List.mem_map.mp hc
  exact trim_getLast?_not_ws hx

theorem normLines_no_nl (raw : Str) : ∀ c ∈ normLines raw, '\n' ∉ c := by
  intro c hc hmem
  obtain ⟨y, hy, rfl⟩ := List.mem_map.mp hc
  exact splitLines_no_nl raw y hy (trim_subset y hmem)

theorem commandLines_mem (raw : Str) :
    ∀ c ∈ (collectLines (normLines raw)).1, c ∈ normLines raw := by
  intro c hc
  rw [collectLines_eq] at hc
  exact (List.mem_filter.mp hc).1

theorem command_lines_shape (raw : Str) :
    ∀ l ∈ splitLines (splitCommandAndExplanation raw).command,
      l = [] ∨ l ∈ (collectLines (normLines raw)).1 := by
  intro l hl
  have hcmd : (splitCommandAndExplanation raw).command
      = trim (joinNl (collectLines (normLines raw)).1) := rfl
  rw [hcmd] at hl
  exact mem_splitLines_trim_joinNl _
    (fun c hc => normLines_head raw c (commandLines_mem raw c hc))
    (fun c hc => normLines_last raw c (commandLines_mem raw c hc))
    (fun c hc => normLines_no_nl raw c (commandLines_mem raw c hc)) l hl

theorem length_filter_split (pre q : Str → Bool)
    (himp : ∀ l, pre l = true → q l = true) :
    ∀ ls : List Str,
      ((ls.filter (fun l => !(pre l))).filter q).length
          + (ls.filter pre).length
        = (ls.filter q).length := by
  intro ls
  induction ls with
  | nil => rfl
  | cons l ls ih =>
    simp only [List.filter_filter] at ih
    cases hpe : pre l with
    | true =>
      have hqe := himp l hpe
      simp [List.filter_cons, hpe, hqe]
      omega
    | false =>
      cases hqe : q l with
      | true =>
        simp [List.filter_cons, hpe, hqe]
        omega
      | false =>
        simp [List.filter_cons, hpe, hqe]
        omega

/-! ### Helper lemmas: fence stripping -/

theorem firstNewlineIdx_append (p rest : Str) (h : '\n' ∉ p) :
    firstNewlineIdx (p ++ '\n' :: rest) = some p.length := by
  induction p with
  | nil => simp [firstNewlineIdx]
  | cons a t ih =>
    have ha : a ≠ '\n' := fun hh => h (hh ▸ List.mem_cons_self a t)
    have ht : '\n' ∉ t := fun hh => h (List.mem_cons_of_mem a hh)
    show (if a = '\n' then some 0
        else (firstNewlineIdx (t ++ '\n' :: rest)).map (· + 1))
      = some (a :: t).length
    rw [if_neg ha, ih ht]
    rfl

theorem no_nl_fence : '\n' ∉ fence := by decide

theorem stripTripleStep_wrapped (tag inner : Str) (htag : '\n' ∉ tag) :
    stripTripleStep (fence ++ tag ++ '\n' :: (inner ++ '\n' :: fence))
      = trim inner := by
  have hsplit : fence ++ tag ++ '\n' :: (inner ++ '\n' :: fence)
      = (((fence ++ tag) ++ ['\n']) ++ (inner ++ ['\n'])) ++ fence := by
    simp [List.append_assoc]
  have hsplit2 : fence ++ tag ++ '\n' :: (inner ++ '\n' :: fence)
      = (fence ++ tag) ++ '\n' :: (inner ++ '\n' :: fence) := by
    simp [List.append_assoc]
  have hnlft : '\n' ∉ fence ++ tag := by
    intro hmem
    rcases List.mem_append.mp hmem with h | h
    · exact no_nl_fence h
    · exact htag h
  have htriple : tripleCheck (fence ++ tag ++ '\n' :: (inner ++ '\n' :: fence)) = true := by
    rw [tripleCheck]
    have h1 : fence.isPrefixOf (fence ++ tag ++ '\n' :: (inner ++ '\n' :: fence)) = true :=
      List.isPrefixOf_iff_prefix.mpr (List.prefix_append _ _)
    have h2 : fence.isSuffixOf (fence ++ tag ++ '\n' :: (inner ++ '\n' :: fence)) = true := by
      rw [hsplit]
      exact List.isSuffixOf_iff_suffix.mpr (List.suffix_append _ _)
    rw [h1, h2]
    rfl
  have hidx : firstNewlineIdx (fence ++ tag ++ '\n' :: (inner ++ '\n' :: fence))
      = some (fence ++ tag).length := by
    rw [hsplit2]
    exact firstNewlineIdx_append _ _ hnlft
  rw [stripTripleStep, if_pos htriple, hidx]
  have hflen : fence.length = 3 := by decide
  have hlen : (fence ++ tag ++ '\n' :: (inner ++ '\n' :: fence)).length - 3
      = (((fence ++ tag) ++ ['\n']) ++ (inner ++ ['\n'])).length := by
    rw [hsplit]
    simp only [List.length_append, List.length_cons, List.length_nil, hflen]
    omega
  have htake : (fence ++ tag ++ '\n' :: (inner ++ '\n' :: fence)).take
        ((fence ++ tag ++ '\n' :: (inner ++ '\n' :: fence)).length - 3)
      = ((fence ++ tag) ++ ['\n']) ++ (inner ++ ['\n']) := by
    rw [hlen]
    conv =>
      lhs
      rw [hsplit]
    exact List.take_left' rfl
  have hdrop : (((fence ++ tag) ++ ['\n']) ++ (inner ++ ['\n'])).drop
        ((fence ++ tag).length + 1)
      = inner ++ ['\n'] := by
    apply List.drop_left'
    try simp only [List.length_append, List.length_cons, List.length_nil]
    try omega
  show trim (listSlice (fence ++ tag ++ '\n' :: (inner ++ '\n' :: fence))
      ((fence ++ tag).length + 1)
      ((fence ++ tag ++ '\n' :: (inner ++ '\n' :: fence)).length - 3)) = trim inner
  unfold listSlice
  rw [htake, hdrop, trim_append_ws (show isWS '\n' = true by decide)]

theorem trim_wrapped (tag inner : Str) :
    trim (fence ++ tag ++ '\n' :: (inner ++ '\n' :: fence))
      = fence ++ tag ++ '\n' :: (inner ++ '\n' :: fence) := by
  have hsplit : fence ++ tag ++ '\n' :: (inner ++ '\n' :: fence)
      = (((fence ++ tag) ++ ['\n']) ++ (inner ++ ['\n'])) ++ fence := by
    simp [List.append_assoc]
  apply trim_eq_self
  · intro a ha
    have hfe : fence = '\x60' :: ['\x60', '\x60'] := by decide
    rw [hfe] at ha
    simp only [List.cons_append, List.head?_cons, Option.some.injEq] at ha
    rw [← ha]
    decide
  · intro a ha
    rw [hsplit, List.getLast?_append] at ha
    have hfl : fence.getLast? = some '\x60' := by decide
    rw [hfl] at ha
    simp only [Option.or_some, Option.some.injEq] at ha
    rw [← ha]
    decide

theorem stripCodeFences_wrapped (tag inner : Str) (htag : '\n' ∉ tag)
    (hinner : trim inner = inner) (hsingle : singleCheck inner = false) :
    stripCodeFences (fence ++ tag ++ '\n' :: (inner ++ '\n' :: fence)) = inner := by
  rw [stripCodeFences, trim_wrapped, stripTripleStep_wrapped tag inner htag,
    hinner, stripSingleStep, if_neg (by simp [hsingle])]

theorem stripSingleStep_length_lt {t : Str} (h : singleCheck t = true) :
    (stripSingleStep t).length < t.length := by
  rw [stripSingleStep, if_pos h]
  rw [singleCheck] at h
  simp only [Bool.and_eq_true, decide_eq_true_eq] at h
  have h3 : t.length > 2 := h.2
  have hlen : (List.dropLast (t.drop 1)).length = t.length - 2 := by
    rw [List.length_dropLast, List.length_drop]
    omega
  have := trim_length_le (List.dropLast (t.drop 1))
  omega

/-! ### Claim theorems -/

/-- Claim C4: for every fence-free input `s` — one on which neither the
triple-fence check nor the single-backtick check fires after trimming —
the normalizer is idempotent: `stripCodeFences (stripCodeFences s) =
stripCodeFences s`. -/
theorem C4_normalize_idempotent (s : Str)
    (h3 : tripleCheck (trim s) = false) (h1 : singleCheck (trim s) = false) :
    stripCodeFences (stripCodeFences s) = stripCodeFences s := by
  have hstep : stripCodeFences s = trim s := by
    rw [stripCodeFences, stripTripleStep, if_neg (by simp [h3]),
      stripSingleStep, if_neg (by simp [h1])]
  rw [hstep, stripCodeFences, trim_idem, stripTripleStep, if_neg (by simp [h3]),
    stripSingleStep, if_neg (by simp [h1])]

/-- Witness for C4 at the fence-free input "ls -la". -/
theorem C4_witness :
    stripCodeFences (stripCodeFences "ls -la".data) = stripCodeFences "ls -la".data :=
  C4_normalize_idempotent "ls -la".data (by decide) (by decide)

/-- Claim C5: `splitCommandAndExplanation` partitions the trimmed lines:
the command list is exactly the lines without the sentinel, in order; the
explanation list is exactly the sentinel lines, in order, with the
sentinel stripped; the primary text is the newline-join (then trim) of
the command list; and no line of the primary text carries the sentinel. -/
theorem C5_split_partition (raw : Str) :
    (collectLines (normLines raw)).1
        = (normLines raw).filter (fun l => !(sentinel.isPrefixOf l))
    ∧ (collectLines (normLines raw)).2
        = ((normLines raw).filter (fun l => sentinel.isPrefixOf l)).map stripSentinel
    ∧ (splitCommandAndExplanation raw).command
        = trim (joinNl (collectLines (normLines raw)).1)
    ∧ ∀ l ∈ splitLines (splitCommandAndExplanation raw).command,
        sentinel.isPrefixOf l = false := by
  refine ⟨?_, ?_, rfl, ?_⟩
  · rw [collectLines_eq]
  · rw [collectLines_eq]
  · intro l hl
    rcases command_lines_shape raw l hl with h | h
    · rw [h]
      decide
    · rw [collectLines_eq] at h
      have h2 := (List.mem_filter.mp h).2
      simpa using h2

/-- Witness for C5: at a concrete answer with one annotation line, the
surviving primary line "git status" carries no sentinel. -/
theorem C5_witness : sentinel.isPrefixOf "git status".data = false :=
  (C5_split_partition "git status\n# explain: safe".data).2.2.2
    "git status".data (by decide)

/-- Claim C10 (implicit): the split trims every line before classifying,
so every line of the parsed primary text and every collected explanation
entry is whitespace-trimmed, and leading indentation inside multi-line
commands is not preserved (witnessed by a concrete indented input). -/
theorem C10_split_trims (raw : Str) :
    (∀ l ∈ splitLines (splitCommandAndExplanation raw).command, trim l = l)
    ∧ (∀ e ∈ (collectLines (normLines raw)).2, trim e = e)
    ∧ (splitCommandAndExplanation "cd /tmp\n  ls -la".data).command
        = "cd /tmp\nls -la".data := by
  refine ⟨?_, ?_, by decide⟩
  · intro l hl
    rcases command_lines_shape raw l hl with h | h
    · rw [h]
      rfl
    · exact normLines_trim raw l (commandLines_mem raw l h)
  · intro e he
    rw [collectLines_eq] at he
    obtain ⟨l, _, rfl⟩ := List.mem_map.mp he
    exact trim_idem ((l.drop sentinel.length).dropWhile isWS)

/-- Witness for C10 at a one-line input. -/
theorem C10_witness : trim "pwd".data = "pwd".data :=
  (C10_split_trims "pwd".data).1 "pwd".data (by decide)

/-- Claim C6 (counterexample): at the normalized input "a\n\nb" the
primary text keeps the interior empty line, so it has three lines while
the input has only two nonempty-after-trim lines and there are no
annotations — the claimed count equation fails. -/
theorem C6_counterexample :
    ¬ ((splitLines (splitCommandAndExplanation "a\n\nb".data).command).length
        + (collectLines (normLines "a\n\nb".data)).2.length
      = ((normLines "a\n\nb".data).filter (fun l => !l.isEmpty)).length) := by
  decide

/-- Claim C6 (amended): counting only nonempty lines of the primary text,
no line is dropped: nonempty primary lines plus annotations equal the
nonempty-after-trim lines of the normalized input, sentinel lines counted
once. -/
theorem C6_amended (raw : Str) :
    ((splitLines (splitCommandAndExplanation raw).command).filter
        (fun l => !l.isEmpty)).length
      + (collectLines (normLines raw)).2.length
    = ((normLines raw).filter (fun l => !l.isEmpty)).length := by
  have hcmd : (splitCommandAndExplanation raw).command
      = trim (joinNl (collectLines (normLines raw)).1) := rfl
  rw [hcmd, collectLines_eq]
  have hsub : ∀ c ∈ (normLines raw).filter (fun l => !(sentinel.isPrefixOf l)),
      c ∈ normLines raw := fun c hc => (List.mem_filter.mp hc).1
  have hfil := filter_splitLines_trim_joinNl
    ((normLines raw).filter (fun l => !(sentinel.isPrefixOf l)))
    (fun c hc => normLines_head raw c (hsub c hc))
    (fun c hc => normLines_last raw c (hsub c hc))
    (fun c hc => normLines_no_nl raw c (hsub c hc))
  rw [hfil, List.length_map]
  apply length_filter_split
  intro l hp
  cases l with
  | nil => exact absurd hp (by decide)
  | cons a t => rfl

/-- Claim C2 (counterexample): the input "```\n  ls\n```" is fully
wrapped with no language tag and inner content "  ls", but the
normalizer returns "ls" — the inner content is trimmed, not
byte-identical — so the claim as stated fails. -/
theorem C2_counterexample :
    "```\n  ls\n```".data = fence ++ [] ++ '\n' :: ("  ls".data ++ '\n' :: fence)
    ∧ stripCodeFences "```\n  ls\n```".data ≠ "  ls".data
    ∧ stripCodeFences "```\n  ls\n```".data = "ls".data := by
  decide

/-- Claim C2 (amended): for input fully wrapped in a triple-backtick
fence with an optional tag after the opening marker, the normalizer
removes exactly the fence layer and the tag line, and the inner content
survives byte-identically provided it is already whitespace-trimmed and
does not itself pass the single-backtick check (in general the
implementation additionally trims it and may strip one backtick layer). -/
theorem C2_amended (tag inner : Str) (htag : '\n' ∉ tag)
    (hinner : trim inner = inner) (hsingle : singleCheck inner = false) :
    stripCodeFences (fence ++ tag ++ '\n' :: (inner ++ '\n' :: fence)) = inner :=
  stripCodeFences_wrapped tag inner htag hinner hsingle

/-- Witness for C2 at the spec's own scenario
normalize("```bash\nls -la\n```") = "ls -la". -/
theorem C2_witness :
    stripCodeFences (fence ++ "bash".data ++ '\n' :: ("ls -la".data ++ '\n' :: fence))
      = "ls -la".data :=
  C2_amended "bash".data "ls -la".data (by decide) (by decide) (by decide)

/-- Claim C3 (counterexample): on "```\n`ls`\n```" the implementation
strips the triple fence and then also the single-backtick pair, giving
"ls", whereas the mutually exclusive reading of the two checks
(`stripExclusive`) gives "`ls`" — the checks are not mutually
exclusive in `stripCodeFences`. -/
theorem C3_counterexample :
    stripCodeFences "```\n`ls`\n```".data = "ls".data
    ∧ stripExclusive "```\n`ls`\n```".data = "`ls`".data
    ∧ stripCodeFences "```\n`ls`\n```".data ≠ stripExclusive "```\n`ls`\n```".data := by
  decide

/-- Claim C3 (amended): the two checks are applied in fixed order with
the triple-fence check first, but sequentially rather than exclusively:
`stripCodeFences` agrees with the exclusive reading exactly when the
single-backtick check does not fire on the output of the triple-fence
stage, and necessarily differs from it whenever both checks fire. -/
theorem C3_amended (t : Str) :
    (tripleCheck (trim t) = false ∨ singleCheck (stripTripleStep (trim t)) = false →
      stripCodeFences t = stripExclusive t)
    ∧ (tripleCheck (trim t) = true → singleCheck (stripTripleStep (trim t)) = true →
      stripCodeFences t ≠ stripExclusive t) := by
  constructor
  · intro h
    cases h3 : tripleCheck (trim t) with
    | false =>
      have hts : stripTripleStep (trim t) = trim t := by
        rw [stripTripleStep, if_neg (by simp [h3])]
      show stripSingleStep (stripTripleStep (trim t))
          = if tripleCheck (trim t) = true then stripTripleStep (trim t)
            else stripSingleStep (trim t)
      rw [hts, if_neg (by simp [h3])]
    | true =>
      have h1 : singleCheck (stripTripleStep (trim t)) = false := by
        rcases h with h | h
        · rw [h3] at h
          exact absurd h (by simp)
        · exact h
      show stripSingleStep (stripTripleStep (trim t))
          = if tripleCheck (trim t) = true then stripTripleStep (trim t)
            else stripSingleStep (trim t)
      rw [if_pos h3, stripSingleStep, if_neg (by simp [h1])]
  · intro h3 h1
    have hlt := stripSingleStep_length_lt h1
    have hex : stripExclusive t = stripTripleStep (trim t) := by
      show (if tripleCheck (trim t) = true then stripTripleStep (trim t)
          else stripSingleStep (trim t)) = stripTripleStep (trim t)
      rw [if_pos h3]
    show stripSingleStep (stripTripleStep (trim t)) ≠ stripExclusive t
    rw [hex]
    intro heq
    rw [heq] at hlt
    omega

/-- Witness for C3: agreement on a merely backtick-wrapped input, and
forced disagreement on a doubly wrapped one. -/
theorem C3_witness :
    stripCodeFences "`ok`".data = stripExclusive "`ok`".data
    ∧ stripCodeFences "```\n`a`\n```".data ≠ stripExclusive "```\n`a`\n```".data :=
  ⟨(C3_amended "`ok`".data).1 (Or.inl (by decide)),
   (C3_amended "```\n`a`\n```".data).2 (by decide) (by decide)⟩

/-- Claim C1 (counterexample): in explain mode, a transport completion
"```\n```" is non-blank (so `callLLM` succeeds) yet normalizes to the
empty string; the action nevertheless exits 0, presents the empty text,
and records a history entry with an empty answer — the claimed terminal
failure does not happen in explain mode. -/
theorem C1_counterexample :
    runExplain { commandParts := ["ls".data]
               , cfgFile := .missing
               , envAskKey := some "k".data
               , envOpenaiKey := none
               , transport := .content (some "```\n```".data) }
      = { exitCode := 0
        , presented := some []
        , history := [{ mode := .explain, question := "ls".data, answer := [] }]
        , llmCalls := 1
        , reportedError := none }
    ∧ stripCodeFences "```\n```".data = [] := by
  decide

/-- Claim C1 (amended): in generate mode, empty normalized output is a
terminal failure — exit code 1, no success-path presentation, no history
entry; in explain mode there is no such guard, and any successful
completion (even one whose normalization is empty) is presented and
recorded. -/
theorem C1_amended :
    (∀ (i : GenInputs) (raw : Str),
      jsTruthy i.apiKeyFlag = false → i.historyFlag = false →
      (trim (joinSp i.questionParts)).isEmpty = false →
      jsTruthy (effectiveApiKey (readConfig i.cfgFile) i.envAskKey i.envOpenaiKey) = true →
      callLLM i.transport = .success raw →
      (trim (stripCodeFences raw)).isEmpty = true →
      (runGenerate i).exitCode = 1 ∧ (runGenerate i).presented = none
        ∧ (runGenerate i).history = [])
    ∧ (∀ (j : ExplainInputs) (raw : Str),
      (trim (joinSp j.commandParts)).isEmpty = false →
      jsTruthy (effectiveApiKey (readConfig j.cfgFile) j.envAskKey j.envOpenaiKey) = true →
      callLLM j.transport = .success raw →
      (runExplain j).exitCode = 0
        ∧ (runExplain j).presented = some (stripCodeFences raw)
        ∧ (runExplain j).history
            = [{ mode := .explain, question := trim (joinSp j.commandParts),
                 answer := stripCodeFences raw }]) := by
  constructor
  · intro i raw hflag hhist hq hkey hcall hempty
    refine ⟨?_, ?_, ?_⟩ <;>
      simp [runGenerate, hflag, hhist, hq, hkey, hcall, hempty]
  · intro j raw hc hkey hcall
    refine ⟨?_, ?_, ?_⟩ <;>
      simp [runExplain, hc, hkey, hcall]

/-- Witness for C1: the generate action fails terminally on a completion
of six backticks, which normalizes to the empty string. -/
theorem C1_witness :
    (runGenerate { apiKeyFlag := none
                 , historyFlag := false
                 , questionParts := ["x".data]
                 , cfgFile := .missing
                 , envAskKey := some "k".data
                 , envOpenaiKey := none
                 , transport := .content (some "``````".data) }).exitCode = 1 :=
  (C1_amended.1 { apiKeyFlag := none
                , historyFlag := false
                , questionParts := ["x".data]
                , cfgFile := .missing
                , envAskKey := some "k".data
                , envOpenaiKey := none
                , transport := .content (some "``````".data) } "``````".data
    (by decide) rfl (by decide) (by decide) (by decide) (by decide)).1

/-- Claim C7: when the transport throws with a message containing
"authentication" or "api key" (case-insensitively), both actions
classify the failure as the auth class, make exactly one transport call
(no retry), exit with code 1, never reach the success-path presentation,
and append no history entry. -/
theorem C7_auth_no_history (i : GenInputs) (j : ExplainInputs) (m : Str)
    (hm : containsSub "authentication".data (lowerStr m) = true
        ∨ containsSub "api key".data (lowerStr m) = true)
    (hti : i.transport = .failure m) (htj : j.transport = .failure m)
    (hflag : jsTruthy i.apiKeyFlag = false) (hhist : i.historyFlag = false)
    (hq : (trim (joinSp i.questionParts)).isEmpty = false)
    (hkeyi : jsTruthy (effectiveApiKey (readConfig i.cfgFile)
        i.envAskKey i.envOpenaiKey) = true)
    (hc : (trim (joinSp j.commandParts)).isEmpty = false)
    (hkeyj : jsTruthy (effectiveApiKey (readConfig j.cfgFile)
        j.envAskKey j.envOpenaiKey) = true) :
    runGenerate i
      = { exitCode := 1, presented := none, history := [], llmCalls := 1
        , reportedError := some (.authFailure, m) }
    ∧ runExplain j
      = { exitCode := 1, presented := none, history := [], llmCalls := 1
        , reportedError := some (.authFailure, m) } := by
  have hclass : classifyMessage m = .authFailure := by
    rcases hm with hm | hm
    · rw [classifyMessage, hm]
      simp
    · rw [classifyMessage, hm]
      simp
  constructor
  · simp [runGenerate, hflag, hhist, hq, hkeyi, hti, callLLM, hclass]
  · simp [runExplain, hc, hkeyj, htj, callLLM, hclass]

/-- Witness for C7 at both trigger substrings: a concrete
"Incorrect API key provided" message (which contains "api key" but not
"authentication") in generate mode, and a concrete
"Authentication failed" message in explain mode. -/
theorem C7_witness :
    runGenerate { apiKeyFlag := none
                , historyFlag := false
                , questionParts := ["list".data]
                , cfgFile := .missing
                , envAskKey := some "k".data
                , envOpenaiKey := none
                , transport := .failure "Incorrect API key provided".data }
      = { exitCode := 1, presented := none, history := [], llmCalls := 1
        , reportedError := some (.authFailure, "Incorrect API key provided".data) }
    ∧ runExplain { commandParts := ["ls".data]
                 , cfgFile := .missing
                 , envAskKey := some "k".data
                 , envOpenaiKey := none
                 , transport := .failure "Authentication failed".data }
      = { exitCode := 1, presented := none, history := [], llmCalls := 1
        , reportedError := some (.authFailure, "Authentication failed".data) } :=
  ⟨(C7_auth_no_history
      { apiKeyFlag := none
      , historyFlag := false
      , questionParts := ["list".data]
      , cfgFile := .missing
      , envAskKey := some "k".data
      , envOpenaiKey := none
      , transport := .failure "Incorrect API key provided".data }
      { commandParts := ["ls".data]
      , cfgFile := .missing
      , envAskKey := some "k".data
      , envOpenaiKey := none
      , transport := .failure "Incorrect API key provided".data }
      "Incorrect API key provided".data
      (Or.inr (by decide)) rfl rfl rfl rfl (by decide) (by decide)
      (by decide) (by decide)).1,
   (C7_auth_no_history
      { apiKeyFlag := none
      , historyFlag := false
      , questionParts := ["list".data]
      , cfgFile := .missing
      , envAskKey := some "k".data
      , envOpenaiKey := none
      , transport := .failure "Authentication failed".data }
      { commandParts := ["ls".data]
      , cfgFile := .missing
      , envAskKey := some "k".data
      , envOpenaiKey := none
      , transport := .failure "Authentication failed".data }
      "Authentication failed".data
      (Or.inl (by decide)) rfl rfl rfl rfl (by decide) (by decide)
      (by decide) (by decide)).2⟩

/-- Claim C8: an unparsable stored config file reads back as the empty
config, the whole invocation behaves exactly as with a missing file (so
it proceeds, without crashing, to resolve the credential from the
environment variables), and the parse failure is never surfaced: no
observable field of the result depends on it. -/
theorem C8_config_recovery :
    readConfig .unparsable = { apiKey := none }
    ∧ (∀ i : GenInputs, i.cfgFile = .unparsable →
        runGenerate i = runGenerate { i with cfgFile := .missing })
    ∧ (∀ j : ExplainInputs, j.cfgFile = .unparsable →
        runExplain j = runExplain { j with cfgFile := .missing })
    ∧ (∀ i : GenInputs, i.cfgFile = .unparsable →
        effectiveApiKey (readConfig i.cfgFile) i.envAskKey i.envOpenaiKey
          = jsOrStr i.envAskKey i.envOpenaiKey) := by
  refine ⟨rfl, ?_, ?_, ?_⟩
  · intro i hi
    simp [runGenerate, hi, readConfig]
  · intro j hj
    simp [runExplain, hj, readConfig]
  · intro i hi
    rw [hi]
    rfl

/-- Witness for C8: a concrete invocation with a corrupt config file
coincides with the same invocation with no config file. -/
theorem C8_witness :
    runGenerate { apiKeyFlag := none
                , historyFlag := false
                , questionParts := ["x".data]
                , cfgFile := .unparsable
                , envAskKey := some "k".data
                , envOpenaiKey := none
                , transport := .content (some "ls".data) }
      = runGenerate { apiKeyFlag := none
                    , historyFlag := false
                    , questionParts := ["x".data]
                    , cfgFile := .missing
                    , envAskKey := some "k".data
                    , envOpenaiKey := none
                    , transport := .content (some "ls".data) } :=
  C8_config_recovery.2.1
    { apiKeyFlag := none
    , historyFlag := false
    , questionParts := ["x".data]
    , cfgFile := .unparsable
    , envAskKey := some "k".data
    , envOpenaiKey := none
    , transport := .content (some "ls".data) } rfl

/-- Claim C9: environment probing is per-query best-effort and total.
`summarizeFiles` returns the absence marker on a read error; in
`detectGitContext` the branch result never depends on the status query's
outcome (and conversely), a thrown or non-zero query yields `none` for
its own field only, and in particular a successful branch query survives
a failed status query. -/
theorem C9_probe_besteffort :
    summarizeFiles (.error ()) = "unavailable".data
    ∧ (∀ (gd : Bool) (b s s' : SpawnOutcome),
        (detectGitContext gd b s).branch = (detectGitContext gd b s').branch)
    ∧ (∀ (gd : Bool) (b b' s : SpawnOutcome),
        (detectGitContext gd b s).summary = (detectGitContext gd b' s).summary)
    ∧ (∀ (gd : Bool) (b : SpawnOutcome),
        (detectGitContext gd b .thrown).summary = none)
    ∧ (∀ (gd : Bool) (b : SpawnOutcome) (st : Option Int) (out : Str),
        st ≠ some 0 → (detectGitContext gd b (.res st out)).summary = none)
    ∧ (∀ (gd : Bool) (s : SpawnOutcome),
        (detectGitContext gd .thrown s).branch = none)
    ∧ (∀ (gd : Bool) (s : SpawnOutcome) (st : Option Int) (out : Str),
        st ≠ some 0 → (detectGitContext gd (.res st out) s).branch = none)
    ∧ (∀ out : Str,
        (detectGitContext true (.res (some 0) out) .thrown).branch
          = some (trim out)) := by
  refine ⟨rfl, ?_, ?_, ?_, ?_, ?_, ?_, ?_⟩
  · intro gd b s s'
    cases gd <;> cases b <;> simp [detectGitContext]
  · intro gd b b' s
    cases gd <;> cases s <;> simp [detectGitContext]
  · intro gd b
    cases gd <;> simp [detectGitContext]
  · intro gd b st out hst
    cases gd <;> simp [detectGitContext, hst]
  · intro gd s
    cases gd <;> simp [detectGitContext]
  · intro gd s st out hst
    cases gd <;> simp [detectGitContext, hst]
  · intro out
    simp [detectGitContext]

/-- Witness for C9: a failed (non-zero) branch query yields no branch,
while a successful branch query survives a thrown status query. -/
theorem C9_witness :
    (detectGitContext true (.res (some 1) "err".data)
        (.res (some 0) " M file".data)).branch = none
    ∧ (detectGitContext true (.res (some 0) "main\n".data) .thrown).branch
        = some (trim "main\n".data) :=
  ⟨C9_probe_besteffort.2.2.2.2.2.2.1 true (.res (some 0) " M file".data)
      (some 1) "err".data (by decide),
   C9_probe_besteffort.2.2.2.2.2.2.2 "main\n".data⟩
